import Mathlib

/-!
# Verification of the dmi-rust metadata parser

Shallow embedding of the DMI metadata parser (`src/parser/key_value.rs`,
`src/parser/metadata.rs`, `src/parser/state.rs`).  The nom parser
combinators used by the source are modelled as functions
`List Char → Option (List Char × α)` (remaining input, result); `f32`
values are modelled as exact rationals (`Rat`): every decimal literal
appearing in the inputs and comparisons of interest (`4.0`, `1.2`, ...)
is carried exactly, and the only equality test the source performs on
floats (`version != 4.0`) is exact.  Rust `u32` integers are modelled as
`Int` (the value lexer of the source, `values.rs`, is not present in the
sources and is modelled from the spec, which calls for signed/unsigned
integer literals; no claim exercises the `u32` range).
-/

namespace Dmi

/-- A nom-style parser over characters: returns the remaining input and the
parsed value, or `none` on failure. -/
abbrev Parser (α : Type) : Type := List Char → Option (List Char × α)

/-- Model of nom `bytes::complete::tag`: matches an exact literal. -/
def tagP (pat : List Char) : Parser (List Char) := fun input =>
  if pat.isPrefixOf input then some (input.drop pat.length, pat) else none

/-- Model of nom `character::complete::newline`: matches the character LF. -/
def newlineP : Parser Char := fun input =>
  match input with
  | c :: rest => if c = '\n' then some (rest, c) else none
  | [] => none

/-- Horizontal whitespace as recognized by nom `space1`: space or tab. -/
def isHorizWs (c : Char) : Bool := c == ' ' || c == '\t'

/-- Model of nom `character::complete::space1`: one or more spaces/tabs. -/
def space1 : Parser (List Char) := fun input =>
  let pre := input.takeWhile isHorizWs
  if pre.isEmpty then none else some (input.dropWhile isHorizWs, pre)

/-- Whitespace as recognized by nom `multispace0`. -/
def isMultiWs (c : Char) : Bool := c == ' ' || c == '\t' || c == '\r' || c == '\n'

/-- Model of nom `character::complete::multispace0`: zero or more whitespace. -/
def multispace0 : Parser (List Char) := fun input =>
  some (input.dropWhile isMultiWs, input.takeWhile isMultiWs)

/-- Model of nom `character::complete::alpha1`: one or more ASCII letters. -/
def alpha1 : Parser (List Char) := fun input =>
  let pre := input.takeWhile Char.isAlpha
  if pre.isEmpty then none else some (input.dropWhile Char.isAlpha, pre)

/-- Model of nom `sequence::pair`. -/
def pairP (p : Parser α) (q : Parser β) : Parser (α × β) := fun input =>
  (p input).bind fun (r1, a) => (q r1).bind fun (r2, b) => some (r2, (a, b))

/-- Model of nom `sequence::terminated`. -/
def terminatedP (p : Parser α) (q : Parser β) : Parser α := fun input =>
  (p input).bind fun (r1, a) => (q r1).bind fun (r2, _) => some (r2, a)

/-- Model of nom `sequence::delimited`. -/
def delimitedP (p : Parser α) (q : Parser β) (s : Parser γ) : Parser β := fun input =>
  (p input).bind fun (r1, _) => (q r1).bind fun (r2, b) =>
    (s r2).bind fun (r3, _) => some (r3, b)

/-- Model of nom `sequence::separated_pair`. -/
def sepPairP (p : Parser α) (q : Parser β) (s : Parser γ) : Parser (α × γ) := fun input =>
  (p input).bind fun (r1, a) => (q r1).bind fun (r2, _) =>
    (s r2).bind fun (r3, c) => some (r3, (a, c))

/-- Model of nom `combinator::verify`. -/
def verifyP (p : Parser α) (pred : α → Bool) : Parser α := fun input =>
  (p input).bind fun (r, a) => if pred a then some (r, a) else none

/-- Model of nom `combinator::all_consuming`. -/
def allConsuming (p : Parser α) : Parser α := fun input =>
  (p input).bind fun (r, a) => if r.isEmpty then some (r, a) else none

/-- Fuelled loop implementing nom `multi::many0`; like nom, a successful
inner parse that consumes nothing is an error. -/
def many0F (p : Parser α) : Nat → List Char → Option (List Char × List α)
  | 0, _ => none
  | fuel + 1, input =>
    match p input with
    | none => some (input, [])
    | some (rest, a) =>
      if rest.length < input.length then
        match many0F p fuel rest with
        | none => none
        | some (r2, as) => some (r2, a :: as)
      else none

/-- Model of nom `multi::many0`: the fuel `input.length + 1` is never
exhausted since every accepted iteration consumes at least one character. -/
def many0 (p : Parser α) : Parser (List α) := fun input =>
  many0F p (input.length + 1) input

/-- Model of nom `multi::many1`: at least one iteration. -/
def many1 (p : Parser α) : Parser (List α) := fun input =>
  match many0 p input with
  | some (_, []) => none
  | some (r, a :: as) => some (r, a :: as)
  | none => none

/-- The single error type of the crate (`error.rs` is not among the sources;
the spec describes one generic failure kind carrying a descriptive message).
Messages interpolating Rust `Debug`/`Display` output of structured values are
abstracted to their constant part; no claim depends on those renderings. -/
inductive DmiError
  | Generic (msg : String)
  deriving DecidableEq

/-- Model of nom `combinator::map_res` over a fallible mapping. -/
def mapResP (p : Parser α) (f : α → Except DmiError β) : Parser β := fun input =>
  (p input).bind fun (r, a) => match f a with
    | Except.ok b => some (r, b)
    | Except.error _ => none

/-- Modelled from the spec: the `Value` union of `values.rs` (missing from
the sources): `Int(integer)`, `Float(decimal)`, `String(text)`,
`List(sequence of Float)`. -/
inductive Value
  | Int (n : Int)
  | Float (q : Rat)
  | String (s : List Char)
  | List (l : List Rat)
  deriving DecidableEq

/-- One or more decimal digits. -/
def digits1 : Parser (List Char) := fun input =>
  let pre := input.takeWhile Char.isDigit
  if pre.isEmpty then none else some (input.dropWhile Char.isDigit, pre)

/-- Numeric value of a digit character. -/
def digitVal (c : Char) : Nat := c.toNat - '0'.toNat

/-- Value of a digit string, most significant first. -/
def digitsToNat (ds : List Char) : Nat := ds.foldl (fun a c => a * 10 + digitVal c) 0

/-- The exact rational denoted by a decimal literal with integer part `ip`,
fractional part `fp` of `k` digits, and sign `neg`. -/
def decimalToRat (neg : Bool) (ip fp k : Nat) : Rat :=
  let n : Int := (ip * 10 ^ k + fp : Nat)
  mkRat (if neg then -n else n) (10 ^ k)

/-- Modelled from the spec: a signed integer or decimal literal; returns
whether a decimal point was present, together with the exact value. -/
def number : Parser (Bool × Rat) := fun input =>
  let (neg, rest) :=
    match input with
    | '-' :: t => (true, t)
    | _ => (false, input)
  (digits1 rest).bind fun (r1, ds) =>
    match r1 with
    | '.' :: r2 =>
      (digits1 r2).bind fun (r3, fs) =>
        some (r3, (true, decimalToRat neg (digitsToNat ds) (digitsToNat fs) fs.length))
    | _ => some (r1, (false, decimalToRat neg (digitsToNat ds) 0 0))

/-- Modelled from the spec: the comma-separated continuation of a numeric
list (`(',' number)*`); each element is coerced to a float.  Fuelled; every
iteration consumes at least the comma. -/
def numberListF : Nat → List Char → Option (List Char × List Rat)
  | 0, _ => none
  | fuel + 1, input =>
    match input with
    | ',' :: r =>
      (number r).bind fun (r2, nq) =>
        match numberListF fuel r2 with
        | some (r3, qs) => some (r3, nq.2 :: qs)
        | none => none
    | _ => some (input, [])

/-- Modelled from the spec: the value lexer `atom` of `values.rs` (missing
from the sources).  Recognizes exactly one of: a quoted string literal with
no escape processing, a comma-separated list of two-or-more numeric literals
(list parsing is invoked only when a separating comma follows the first
number), or a single signed integer/decimal literal (a decimal point makes
it a `Float`, otherwise it is an `Int`). -/
def atom : Parser Value := fun input =>
  match input with
  | '"' :: r =>
    let s := r.takeWhile (fun c => c ≠ '"')
    match r.dropWhile (fun c => c ≠ '"') with
    | '"' :: r3 => some (r3, Value.String s)
    | _ => none
  | _ =>
    (number input).bind fun (r1, hq) =>
      match r1 with
      | ',' :: _ =>
        (numberListF (r1.length + 1) r1).bind fun (r2, qs) =>
          some (r2, Value.List (hq.2 :: qs))
      | _ =>
        if hq.1 then some (r1, Value.Float hq.2)
        else some (r1, Value.Int hq.2.num)

/-- The `Key` enumeration of `key_value.rs`. -/
inductive Key
  | Version
  | Width
  | Height
  | State
  | Dirs
  | Frames
  | Delay
  | Loop
  | Rewind
  | Movement
  | Hotspot
  | Unk (name : List Char)
  deriving DecidableEq

/-- The keyword table of `key` in `key_value.rs`. -/
def keyOfName (s : List Char) : Key :=
  if s = "version".data then Key.Version
  else if s = "width".data then Key.Width
  else if s = "height".data then Key.Height
  else if s = "state".data then Key.State
  else if s = "dirs".data then Key.Dirs
  else if s = "frames".data then Key.Frames
  else if s = "delay".data then Key.Delay
  else if s = "loop".data then Key.Loop
  else if s = "rewind".data then Key.Rewind
  else if s = "movement".data then Key.Movement
  else if s = "hotspot".data then Key.Hotspot
  else Key.Unk s

/-- The `key` parser of `key_value.rs`: an alphabetic token mapped through
the keyword table. -/
def key : Parser Key := fun input =>
  (alpha1 input).map fun (r, s) => (r, keyOfName s)

/-- The `Dirs` enumeration of `key_value.rs`. -/
inductive Dirs
  | One
  | Four
  | Eight
  deriving DecidableEq

/-- `impl TryFrom<u32> for Dirs` of `key_value.rs`. -/
def Dirs.tryFrom (n : Int) : Except DmiError Dirs :=
  if n = 1 then Except.ok Dirs.One
  else if n = 4 then Except.ok Dirs.Four
  else if n = 8 then Except.ok Dirs.Eight
  else Except.error (DmiError.Generic ("Invalid value " ++ toString n ++ " for dirs"))

/-- The `KeyValue` enumeration of `key_value.rs`. -/
inductive KeyValue
  | Version (v : Rat)
  | Width (n : Int)
  | Height (n : Int)
  | State (s : List Char)
  | Dirs (d : Dirs)
  | Frames (n : Int)
  | Delay (l : List Rat)
  | Loop (n : Int)
  | Rewind (n : Int)
  | Movement (n : Int)
  | Hotspot (l : List Rat)
  | Unk (k : List Char) (v : Value)
  deriving DecidableEq

/-- The key-specific validation closure inside `key_value` of
`key_value.rs`: each known key accepts exactly one `Value` shape. -/
def validateKV : Key × Value → Except DmiError KeyValue
  | (Key.Version, Value.Float x) => Except.ok (KeyValue.Version x)
  | (Key.Width, Value.Int x) => Except.ok (KeyValue.Width x)
  | (Key.Height, Value.Int x) => Except.ok (KeyValue.Height x)
  | (Key.State, Value.String x) => Except.ok (KeyValue.State x)
  | (Key.Dirs, Value.Int x) => (Dirs.tryFrom x).map KeyValue.Dirs
  | (Key.Frames, Value.Int x) => Except.ok (KeyValue.Frames x)
  | (Key.Delay, Value.List x) => Except.ok (KeyValue.Delay x)
  | (Key.Loop, Value.Int x) => Except.ok (KeyValue.Loop x)
  | (Key.Rewind, Value.Int x) => Except.ok (KeyValue.Rewind x)
  | (Key.Movement, Value.Int x) => Except.ok (KeyValue.Movement x)
  | (Key.Hotspot, Value.List x) => Except.ok (KeyValue.Hotspot x)
  | (Key.Unk k, v) => Except.ok (KeyValue.Unk k v)
  | (_, _) => Except.error (DmiError.Generic "Unable to validate key to value pair")

/-- The `key_value` parser of `key_value.rs`. -/
def key_value : Parser KeyValue :=
  mapResP (sepPairP key (tagP " = ".data) atom) validateKV

/-- Result of a Rust `TryFrom` implementation that may also panic:
`panic` models the `unreachable!()` branch.  The parsers are proven to
never take it (claim C9). -/
inductive TRes (α : Type)
  | ok (a : α)
  | err (e : DmiError)
  | panic
  deriving DecidableEq

/-- Model of nom `combinator::map_res` over a `TryFrom` that may panic;
the `panic` outcome is mapped to failure, and is separately proven
unreachable from the parsers. -/
def mapTResP (p : Parser α) (f : α → TRes β) : Parser β := fun input =>
  (p input).bind fun (r, a) => match f a with
    | TRes.ok b => some (r, b)
    | _ => none

/-- Unordered string-keyed mapping (Rust `HashMap<String, Value>`),
modelled as an association list whose `insert` replaces the binding of an
existing key (the `HashMap::insert` semantics). -/
def insertKV (m : List (List Char × Value)) (k : List Char) (v : Value) :
    List (List Char × Value) :=
  match m with
  | [] => [(k, v)]
  | (k', v') :: t => if k' = k then (k, v) :: t else (k', v') :: insertKV t k v

/-- Lookup in the association-list model of `HashMap<String, Value>`. -/
def lookupKV (m : List (List Char × Value)) (k : List Char) : Option Value :=
  match m with
  | [] => none
  | (k', v') :: t => if k' = k then some v' else lookupKV t k

/-- The unknown-key accumulation step shared verbatim by `Header::try_from`
and `State::try_from`: insert into the mapping if it exists, otherwise start
a fresh singleton mapping. -/
def unkStep (o : Option (List (List Char × Value))) (k : List Char) (v : Value) :
    Option (List (List Char × Value)) :=
  match o with
  | some m => some (insertKV m k v)
  | none => some [(k, v)]

/-- The `Header` struct of `metadata.rs`. -/
structure Header where
  version : Rat
  width : Int
  height : Int
  unk : Option (List (List Char × Value))
  deriving DecidableEq

/-- Accumulator of the property fold in `Header::try_from`
(`let mut width = None; let mut height = None; let mut unk = None;`). -/
structure HAcc where
  width : Option Int
  height : Option Int
  unk : Option (List (List Char × Value))
  deriving DecidableEq

/-- The `for value in kvs` loop of `Header::try_from` in `metadata.rs`. -/
def headerFold : List KeyValue → HAcc → Except DmiError HAcc
  | [], acc => Except.ok acc
  | kv :: rest, acc =>
    match kv with
    | KeyValue.Width w => headerFold rest ⟨some w, acc.height, acc.unk⟩
    | KeyValue.Height h => headerFold rest ⟨acc.width, some h, acc.unk⟩
    | KeyValue.Unk k v => headerFold rest ⟨acc.width, acc.height, unkStep acc.unk k v⟩
    | _ => Except.error (DmiError.Generic "not allowed here")

/-- The initial accumulator of `Header::try_from`
(`let mut width = None; let mut height = None; let mut unk = None;`). -/
def hInit : HAcc := ⟨none, none, none⟩

/-- `impl TryFrom<(KeyValue, Vec<KeyValue>)> for Header` of `metadata.rs`:
extract the version from the introducer (`unreachable!()` otherwise),
reject versions other than 4.0, fold the properties, then require `width`
and `height`. -/
def Header.tryFrom (intro : KeyValue) (kvs : List KeyValue) : TRes Header :=
  match intro with
  | KeyValue.Version v =>
    if v ≠ 4 then TRes.err (DmiError.Generic "Version not supported, only 4.0")
    else
      match headerFold kvs hInit with
      | Except.error e => TRes.err e
      | Except.ok acc =>
        match acc.width with
        | none => TRes.err (DmiError.Generic "Required field `width` was not found")
        | some w =>
          match acc.height with
          | none => TRes.err (DmiError.Generic "Required field `height` was not found")
          | some h => TRes.ok ⟨v, w, h, acc.unk⟩
  | _ => TRes.panic

/-- The `begin_dmi` parser of `metadata.rs`. -/
def begin_dmi : Parser (List Char) := terminatedP (tagP "# BEGIN DMI".data) newlineP

/-- The `end_dmi` parser of `metadata.rs`. -/
def end_dmi : Parser (List Char) := terminatedP (tagP "# END DMI".data) multispace0

/-- The guard predicate of the `header` parser:
`matches!(v, KeyValue::Version(_))`. -/
def isVersionKV : KeyValue → Bool
  | KeyValue.Version _ => true
  | _ => false

/-- The grammar part of the `header` parser of `metadata.rs`: a
version introducer line followed by one or more indented property lines. -/
def header_raw : Parser (KeyValue × List KeyValue) :=
  pairP (verifyP (terminatedP key_value newlineP) isVersionKV)
    (many1 (delimitedP space1 key_value newlineP))

/-- The `header` parser of `metadata.rs`. -/
def header : Parser Header :=
  mapTResP header_raw fun p => Header.tryFrom p.1 p.2

/-- The `State` struct of `state.rs`.  The `hotspot` field models the Rust
`Option<[f32; 3]>`; it is assigned only from a list of length 3. -/
structure State where
  name : List Char
  dirs : Dirs
  frames : Int
  delays : Option (List Rat)
  loop_flag : Option Int
  rewind : Option Int
  movement : Option Int
  hotspot : Option (List Rat)
  unk : Option (List (List Char × Value))
  deriving DecidableEq

/-- Accumulator of the property fold in `State::try_from`
(`dirs`/`delays`/... start at `None`, `frames` starts at 1). -/
structure SAcc where
  dirs : Option Dirs
  frames : Int
  delays : Option (List Rat)
  loop_flag : Option Int
  rewind : Option Int
  movement : Option Int
  hotspot : Option (List Rat)
  unk : Option (List (List Char × Value))
  deriving DecidableEq

/-- The `for kv in kvs` loop of `State::try_from` in `state.rs`. -/
def stateFold : List KeyValue → SAcc → Except DmiError SAcc
  | [], acc => Except.ok acc
  | kv :: rest, acc =>
    match kv with
    | KeyValue.Dirs d =>
      stateFold rest ⟨some d, acc.frames, acc.delays, acc.loop_flag, acc.rewind,
        acc.movement, acc.hotspot, acc.unk⟩
    | KeyValue.Frames f =>
      stateFold rest ⟨acc.dirs, f, acc.delays, acc.loop_flag, acc.rewind,
        acc.movement, acc.hotspot, acc.unk⟩
    | KeyValue.Delay l =>
      stateFold rest ⟨acc.dirs, acc.frames, some l, acc.loop_flag, acc.rewind,
        acc.movement, acc.hotspot, acc.unk⟩
    | KeyValue.Loop n =>
      stateFold rest ⟨acc.dirs, acc.frames, acc.delays, some n, acc.rewind,
        acc.movement, acc.hotspot, acc.unk⟩
    | KeyValue.Rewind n =>
      stateFold rest ⟨acc.dirs, acc.frames, acc.delays, acc.loop_flag, some n,
        acc.movement, acc.hotspot, acc.unk⟩
    | KeyValue.Movement n =>
      stateFold rest ⟨acc.dirs, acc.frames, acc.delays, acc.loop_flag, acc.rewind,
        some n, acc.hotspot, acc.unk⟩
    | KeyValue.Hotspot h =>
      if h.length = 3 then
        stateFold rest ⟨acc.dirs, acc.frames, acc.delays, acc.loop_flag, acc.rewind,
          acc.movement, some h, acc.unk⟩
      else Except.error (DmiError.Generic "Hotspot information was not length 3")
    | KeyValue.Unk k v =>
      stateFold rest ⟨acc.dirs, acc.frames, acc.delays, acc.loop_flag, acc.rewind,
        acc.movement, acc.hotspot, unkStep acc.unk k v⟩
    | _ => Except.error (DmiError.Generic "not allowed here")

/-- The initial accumulator of `State::try_from` (`frames` starts at 1). -/
def sInit : SAcc := ⟨none, 1, none, none, none, none, none, none⟩

/-- `impl TryFrom<(KeyValue, Vec<KeyValue>)> for State` of `state.rs`:
extract the name from the introducer (`unreachable!()` otherwise), fold the
properties, then require `dirs`. -/
def State.tryFrom (intro : KeyValue) (kvs : List KeyValue) : TRes State :=
  match intro with
  | KeyValue.State name =>
    match stateFold kvs sInit with
    | Except.error e => TRes.err e
    | Except.ok acc =>
      match acc.dirs with
      | none => TRes.err (DmiError.Generic "Required field `dirs` was not found")
      | some d =>
        TRes.ok ⟨name, d, acc.frames, acc.delays, acc.loop_flag, acc.rewind,
          acc.movement, acc.hotspot, acc.unk⟩
  | _ => TRes.panic

/-- The guard predicate of the `state` parser:
`matches!(v, KeyValue::State(_))`. -/
def isStateKV : KeyValue → Bool
  | KeyValue.State _ => true
  | _ => false

/-- The grammar part of the `state` parser of `state.rs`: a state
introducer line followed by one or more indented property lines. -/
def state_raw : Parser (KeyValue × List KeyValue) :=
  pairP (verifyP (terminatedP key_value newlineP) isStateKV)
    (many1 (delimitedP space1 key_value newlineP))

/-- The `state` parser of `state.rs`. -/
def state : Parser State :=
  mapTResP state_raw fun p => State.tryFrom p.1 p.2

/-- The `Metadata` struct of `metadata.rs`. -/
structure Metadata where
  header : Header
  states : List State
  deriving DecidableEq

/-- The `metadata` parser of `metadata.rs`: the whole input must consist of
the `# BEGIN DMI` line, one header, zero or more states, and `# END DMI`. -/
def metadata : Parser Metadata := fun input =>
  (allConsuming (delimitedP begin_dmi (pairP header (many0 state)) end_dmi) input).map
    fun (r, hs) => (r, ⟨hs.1, hs.2⟩)

/-- Lookup through the optional unknown-key mapping of a record. -/
def unkLookup (o : Option (List (List Char × Value))) (k : List Char) : Option Value :=
  match o with
  | none => none
  | some m => lookupKV m k

/-- Whether the first character of the remaining input is horizontal
whitespace (`false` on empty input). -/
def headIsHorizWs : List Char → Bool
  | [] => false
  | c :: _ => isHorizWs c

/-- The end-to-end example document of spec §8: introducer line, version
4.0, header properties `width`/`height`, two state blocks, terminator. -/
def doc1 : List Char :=
  ("# BEGIN DMI\n" ++
   "version = 4.0\n" ++
   "    width = 32\n" ++
   "    height = 32\n" ++
   "state = \"state1\"\n" ++
   "    dirs = 4\n" ++
   "    frames = 2\n" ++
   "    delay = 1.2,1\n" ++
   "state = \"state2\"\n" ++
   "    dirs = 1\n" ++
   "    frames = 1\n" ++
   "# END DMI").data

/-- The `Metadata` value the parser produces on `doc1`. -/
def md1 : Metadata :=
  ⟨⟨4, 32, 32, none⟩,
   [⟨"state1".data, Dirs.Four, 2, some [mkRat 6 5, 1], none, none, none, none, none⟩,
    ⟨"state2".data, Dirs.One, 1, none, none, none, none, none, none⟩]⟩

/-- The document of spec §8 with the version introducer line indented by
exactly two spaces, as §6 describes the canonical encoder output. -/
def doc1Indent : List Char :=
  ("# BEGIN DMI\n" ++
   "  version = 4.0\n" ++
   "    width = 32\n" ++
   "    height = 32\n" ++
   "state = \"state1\"\n" ++
   "    dirs = 4\n" ++
   "    frames = 2\n" ++
   "    delay = 1.2,1\n" ++
   "state = \"state2\"\n" ++
   "    dirs = 1\n" ++
   "    frames = 1\n" ++
   "# END DMI").data

/-! ## Association-list and unknown-mapping lemmas -/

theorem insertKV_ne_nil (m : List (List Char × Value)) (k : List Char) (v : Value) :
    insertKV m k v ≠ [] := by
  cases m with
  | nil => simp [insertKV]
  | cons p t =>
    obtain ⟨k', v'⟩ := p
    simp only [insertKV]
    split <;> simp

theorem lookupKV_insertKV_self (m : List (List Char × Value)) (k : List Char) (v : Value) :
    lookupKV (insertKV m k v) k = some v := by
  induction m with
  | nil => simp [insertKV, lookupKV]
  | cons p t ih =>
    obtain ⟨k', v'⟩ := p
    simp only [insertKV]
    by_cases hk : k' = k
    · simp [hk, lookupKV]
    · simp [hk, lookupKV, ih]

theorem lookupKV_insertKV_ne (m : List (List Char × Value)) (k k' : List Char) (v : Value)
    (h : k' ≠ k) : lookupKV (insertKV m k v) k' = lookupKV m k' := by
  induction m with
  | nil => simp [insertKV, lookupKV, Ne.symm h]
  | cons p t ih =>
    obtain ⟨k0, v0⟩ := p
    simp only [insertKV]
    by_cases hk : k0 = k
    · subst hk
      simp [lookupKV, Ne.symm h]
    · simp only [if_neg hk, lookupKV]
      split <;> simp [ih]

theorem unkStep_ne_none (o : Option (List (List Char × Value))) (k : List Char) (v : Value) :
    unkStep o k v ≠ none := by
  cases o <;> simp [unkStep]

theorem unkStep_some_ne_nil (o : Option (List (List Char × Value))) (k : List Char)
    (v : Value) (m : List (List Char × Value)) (h : unkStep o k v = some m) : m ≠ [] := by
  cases o with
  | none =>
    simp only [unkStep] at h
    cases h
    simp
  | some m0 =>
    simp only [unkStep] at h
    cases h
    exact insertKV_ne_nil m0 k v

theorem unkLookup_unkStep_self (o : Option (List (List Char × Value))) (k : List Char)
    (v : Value) : unkLookup (unkStep o k v) k = some v := by
  cases o with
  | none => simp [unkStep, unkLookup, lookupKV]
  | some m => simp [unkStep, unkLookup, lookupKV_insertKV_self]

theorem unkLookup_unkStep_ne (o : Option (List (List Char × Value))) (k k' : List Char)
    (v : Value) (h : k' ≠ k) : unkLookup (unkStep o k v) k' = unkLookup o k' := by
  cases o with
  | none => simp [unkStep, unkLookup, lookupKV, Ne.symm h]
  | some m => simp [unkStep, unkLookup, lookupKV_insertKV_ne m k k' v h]

/-! ## Repetition and whitespace lemmas -/

theorem many0_of_fail {α : Type} {p : Parser α} {input : List Char} (h : p input = none) :
    many0 p input = some (input, []) := by
  simp [many0, many0F, h]

theorem many1_of_fail {α : Type} {p : Parser α} {input : List Char} (h : p input = none) :
    many1 p input = none := by
  simp [many1, many0_of_fail h]

theorem replicate_space_split (k : Nat) (c : Char) (rest : List Char)
    (hc : isHorizWs c = false) :
    (List.replicate k ' ' ++ c :: rest).takeWhile isHorizWs = List.replicate k ' ' ∧
    (List.replicate k ' ' ++ c :: rest).dropWhile isHorizWs = c :: rest := by
  induction k with
  | zero => simp [List.takeWhile_cons, List.dropWhile_cons, hc]
  | succ n ih =>
    have hsp : isHorizWs ' ' = true := by decide
    simp [List.replicate_succ, List.takeWhile_cons, List.dropWhile_cons, hsp, ih]

theorem space1_replicate (k : Nat) (c : Char) (rest : List Char)
    (hk : 1 ≤ k) (hc : isHorizWs c = false) :
    space1 (List.replicate k ' ' ++ c :: rest) = some (c :: rest, List.replicate k ' ') := by
  obtain ⟨h1, h2⟩ := replicate_space_split k c rest hc
  have hne : (List.replicate k ' ').isEmpty = false := by
    cases k with
    | zero => omega
    | succ n => simp [List.replicate_succ]
  simp [space1, h1, h2, hne]

theorem space1_none_of_head {input : List Char} (h : headIsHorizWs input = false) :
    space1 input = none := by
  cases input with
  | nil => simp [space1]
  | cons c t =>
    simp only [headIsHorizWs] at h
    simp [space1, List.takeWhile_cons, h]

/-! ## Combinator inversion lemmas -/

theorem pairP_some_inv {α β : Type} {p : Parser α} {q : Parser β} {input r : List Char}
    {ab : α × β} (h : pairP p q input = some (r, ab)) :
    ∃ r1, p input = some (r1, ab.1) ∧ q r1 = some (r, ab.2) := by
  simp only [pairP, Option.bind_eq_some] at h
  obtain ⟨⟨r1, a⟩, h1, h2⟩ := h
  obtain ⟨⟨r2, b⟩, h3, h4⟩ := h2
  simp only [Option.some.injEq, Prod.mk.injEq] at h4
  obtain ⟨hr, hab⟩ := h4
  subst hr
  subst hab
  exact ⟨r1, h1, h3⟩

theorem terminatedP_some_inv {α β : Type} {p : Parser α} {q : Parser β}
    {input r : List Char} {a : α} (h : terminatedP p q input = some (r, a)) :
    ∃ r1 b, p input = some (r1, a) ∧ q r1 = some (r, b) := by
  simp only [terminatedP, Option.bind_eq_some] at h
  obtain ⟨⟨r1, a1⟩, h1, h2⟩ := h
  obtain ⟨⟨r2, b⟩, h3, h4⟩ := h2
  simp only [Option.some.injEq, Prod.mk.injEq] at h4
  obtain ⟨hr, ha⟩ := h4
  subst hr
  subst ha
  exact ⟨r1, b, h1, h3⟩

theorem delimitedP_some_inv {α β γ : Type} {p : Parser α} {q : Parser β} {s : Parser γ}
    {input r : List Char} {b : β} (h : delimitedP p q s input = some (r, b)) :
    ∃ r1 a r2 c, p input = some (r1, a) ∧ q r1 = some (r2, b) ∧ s r2 = some (r, c) := by
  simp only [delimitedP, Option.bind_eq_some] at h
  obtain ⟨⟨r1, a⟩, h1, h2⟩ := h
  obtain ⟨⟨r2, b1⟩, h3, h4⟩ := h2
  obtain ⟨⟨r3, c⟩, h5, h6⟩ := h4
  simp only [Option.some.injEq, Prod.mk.injEq] at h6
  obtain ⟨hr, hb⟩ := h6
  subst hr
  subst hb
  exact ⟨r1, a, r2, c, h1, h3, h5⟩

theorem verifyP_some_inv {α : Type} {p : Parser α} {pred : α → Bool}
    {input r : List Char} {a : α} (h : verifyP p pred input = some (r, a)) :
    p input = some (r, a) ∧ pred a = true := by
  simp only [verifyP, Option.bind_eq_some] at h
  obtain ⟨⟨r1, a1⟩, h1, h2⟩ := h
  by_cases hp : pred a1 = true
  · rw [if_pos hp] at h2
    simp only [Option.some.injEq, Prod.mk.injEq] at h2
    obtain ⟨hr, ha⟩ := h2
    subst hr
    subst ha
    exact ⟨h1, hp⟩
  · rw [if_neg hp] at h2
    exact absurd h2 (by simp)

theorem allConsuming_some_inv {α : Type} {p : Parser α} {input r : List Char} {a : α}
    (h : allConsuming p input = some (r, a)) : p input = some (r, a) ∧ r = [] := by
  simp only [allConsuming, Option.bind_eq_some] at h
  obtain ⟨⟨r1, a1⟩, h1, h2⟩ := h
  by_cases hr : r1.isEmpty = true
  · rw [if_pos hr] at h2
    simp only [Option.some.injEq, Prod.mk.injEq] at h2
    obtain ⟨hr2, ha⟩ := h2
    subst hr2
    subst ha
    exact ⟨h1, by simpa [List.isEmpty_iff] using hr⟩
  · rw [if_neg hr] at h2
    exact absurd h2 (by simp)

theorem mapTResP_some_inv {α β : Type} {p : Parser α} {f : α → TRes β}
    {input r : List Char} {b : β} (h : mapTResP p f input = some (r, b)) :
    ∃ a, p input = some (r, a) ∧ f a = TRes.ok b := by
  simp only [mapTResP, Option.bind_eq_some] at h
  obtain ⟨⟨r1, a⟩, h1, h2⟩ := h
  cases hf : f a with
  | ok b1 =>
    rw [hf] at h2
    simp only [Option.some.injEq, Prod.mk.injEq] at h2
    obtain ⟨hr, hb⟩ := h2
    subst hr
    subst hb
    exact ⟨a, h1, hf⟩
  | err e => rw [hf] at h2; exact absurd h2 (by simp)
  | panic => rw [hf] at h2; exact absurd h2 (by simp)

/-! ## Header fold lemmas -/

theorem headerFold_width_pres : ∀ (kvs : List KeyValue) (acc acc' : HAcc),
    headerFold kvs acc = Except.ok acc' → (∀ w : Int, KeyValue.Width w ∉ kvs) →
    acc'.width = acc.width := by
  intro kvs
  induction kvs with
  | nil =>
    intro acc acc' h _
    simp only [headerFold, Except.ok.injEq] at h
    simp [h]
  | cons kv rest ih =>
    intro acc acc' h hw
    cases kv <;> simp only [headerFold] at h <;> try exact absurd h (by simp)
    case Width w => exact absurd (List.mem_cons_self _ _) (hw w)
    case Height n =>
      exact ih ⟨acc.width, some n, acc.unk⟩ acc' h fun w hm => hw w (List.mem_cons_of_mem _ hm)
    case Unk k v =>
      exact ih ⟨acc.width, acc.height, unkStep acc.unk k v⟩ acc' h
        fun w hm => hw w (List.mem_cons_of_mem _ hm)

theorem headerFold_height_pres : ∀ (kvs : List KeyValue) (acc acc' : HAcc),
    headerFold kvs acc = Except.ok acc' → (∀ n : Int, KeyValue.Height n ∉ kvs) →
    acc'.height = acc.height := by
  intro kvs
  induction kvs with
  | nil =>
    intro acc acc' h _
    simp only [headerFold, Except.ok.injEq] at h
    simp [h]
  | cons kv rest ih =>
    intro acc acc' h hh
    cases kv <;> simp only [headerFold] at h <;> try exact absurd h (by simp)
    case Height n => exact absurd (List.mem_cons_self _ _) (hh n)
    case Width w =>
      exact ih ⟨some w, acc.height, acc.unk⟩ acc' h fun n hm => hh n (List.mem_cons_of_mem _ hm)
    case Unk k v =>
      exact ih ⟨acc.width, acc.height, unkStep acc.unk k v⟩ acc' h
        fun n hm => hh n (List.mem_cons_of_mem _ hm)

theorem headerFold_width_stays : ∀ (kvs : List KeyValue) (acc acc' : HAcc) (u : Int),
    headerFold kvs acc = Except.ok acc' → acc.width = some u →
    ∃ u', acc'.width = some u' := by
  intro kvs
  induction kvs with
  | nil =>
    intro acc acc' u h hu
    simp only [headerFold, Except.ok.injEq] at h
    exact ⟨u, by rw [← h]; exact hu⟩
  | cons kv rest ih =>
    intro acc acc' u h hu
    cases kv <;> simp only [headerFold] at h <;> try exact absurd h (by simp)
    case Width w => exact ih ⟨some w, acc.height, acc.unk⟩ acc' w h rfl
    case Height n => exact ih ⟨acc.width, some n, acc.unk⟩ acc' u h hu
    case Unk k v => exact ih ⟨acc.width, acc.height, unkStep acc.unk k v⟩ acc' u h hu

theorem headerFold_height_stays : ∀ (kvs : List KeyValue) (acc acc' : HAcc) (u : Int),
    headerFold kvs acc = Except.ok acc' → acc.height = some u →
    ∃ u', acc'.height = some u' := by
  intro kvs
  induction kvs with
  | nil =>
    intro acc acc' u h hu
    simp only [headerFold, Except.ok.injEq] at h
    exact ⟨u, by rw [← h]; exact hu⟩
  | cons kv rest ih =>
    intro acc acc' u h hu
    cases kv <;> simp only [headerFold] at h <;> try exact absurd h (by simp)
    case Height n => exact ih ⟨acc.width, some n, acc.unk⟩ acc' n h rfl
    case Width w => exact ih ⟨some w, acc.height, acc.unk⟩ acc' u h hu
    case Unk k v => exact ih ⟨acc.width, acc.height, unkStep acc.unk k v⟩ acc' u h hu

theorem headerFold_append : ∀ (xs ys : List KeyValue) (acc : HAcc),
    headerFold (xs ++ ys) acc =
      match headerFold xs acc with
      | Except.ok a => headerFold ys a
      | Except.error e => Except.error e := by
  intro xs
  induction xs with
  | nil => intro ys acc; simp [headerFold]
  | cons kv rest ih =>
    intro ys acc
    cases kv <;> simp only [List.cons_append, headerFold] <;> try rfl
    case Width w => exact ih ys _
    case Height n => exact ih ys _
    case Unk k v => exact ih ys _

theorem headerFold_unk_pres : ∀ (kvs : List KeyValue) (acc acc' : HAcc) (k : List Char),
    headerFold kvs acc = Except.ok acc' → (∀ v, KeyValue.Unk k v ∉ kvs) →
    unkLookup acc'.unk k = unkLookup acc.unk k := by
  intro kvs
  induction kvs with
  | nil =>
    intro acc acc' k h _
    simp only [headerFold, Except.ok.injEq] at h
    simp [h]
  | cons kv rest ih =>
    intro acc acc' k h hu
    cases kv <;> simp only [headerFold] at h <;> try exact absurd h (by simp)
    case Width w =>
      exact ih ⟨some w, acc.height, acc.unk⟩ acc' k h
        fun v hm => hu v (List.mem_cons_of_mem _ hm)
    case Height n =>
      exact ih ⟨acc.width, some n, acc.unk⟩ acc' k h
        fun v hm => hu v (List.mem_cons_of_mem _ hm)
    case Unk k0 v0 =>
      have hk : k ≠ k0 := by
        intro hkk
        subst hkk
        exact absurd (List.mem_cons_self _ _) (hu v0)
      have := ih ⟨acc.width, acc.height, unkStep acc.unk k0 v0⟩ acc' k h
        fun v hm => hu v (List.mem_cons_of_mem _ hm)
      rw [this]
      exact unkLookup_unkStep_ne acc.unk k0 k v0 hk

theorem headerFold_unk_none : ∀ (kvs : List KeyValue) (acc acc' : HAcc),
    headerFold kvs acc = Except.ok acc' →
    (acc'.unk = none ↔ (acc.unk = none ∧ ∀ k v, KeyValue.Unk k v ∉ kvs)) := by
  intro kvs
  induction kvs with
  | nil =>
    intro acc acc' h
    simp only [headerFold, Except.ok.injEq] at h
    simp [h]
  | cons kv rest ih =>
    intro acc acc' h
    cases kv <;> simp only [headerFold] at h <;> try exact absurd h (by simp)
    case Width w =>
      rw [ih ⟨some w, acc.height, acc.unk⟩ acc' h]
      simp [List.mem_cons]
    case Height n =>
      rw [ih ⟨acc.width, some n, acc.unk⟩ acc' h]
      simp [List.mem_cons]
    case Unk k0 v0 =>
      rw [ih ⟨acc.width, acc.height, unkStep acc.unk k0 v0⟩ acc' h]
      constructor
      · intro hc
        exact absurd hc.1 (unkStep_ne_none _ _ _)
      · intro hc
        exact absurd (List.mem_cons_self _ _) (hc.2 k0 v0)

theorem headerFold_unk_ne_nil : ∀ (kvs : List KeyValue) (acc acc' : HAcc),
    headerFold kvs acc = Except.ok acc' →
    (∀ m, acc.unk = some m → m ≠ []) → ∀ m, acc'.unk = some m → m ≠ [] := by
  intro kvs
  induction kvs with
  | nil =>
    intro acc acc' h hm
    simp only [headerFold, Except.ok.injEq] at h
    rw [← h]
    exact hm
  | cons kv rest ih =>
    intro acc acc' h hm
    cases kv <;> simp only [headerFold] at h <;> try exact absurd h (by simp)
    case Width w => exact ih ⟨some w, acc.height, acc.unk⟩ acc' h hm
    case Height n => exact ih ⟨acc.width, some n, acc.unk⟩ acc' h hm
    case Unk k0 v0 =>
      exact ih ⟨acc.width, acc.height, unkStep acc.unk k0 v0⟩ acc' h
        fun m hm2 => unkStep_some_ne_nil acc.unk k0 v0 m hm2

theorem headerFold_unk_keys : ∀ (kvs : List KeyValue) (acc acc' : HAcc) (k : List Char),
    headerFold kvs acc = Except.ok acc' →
    ((∃ v, unkLookup acc'.unk k = some v) ↔
      (∃ v, unkLookup acc.unk k = some v) ∨ (∃ v, KeyValue.Unk k v ∈ kvs)) := by
  intro kvs
  induction kvs with
  | nil =>
    intro acc acc' k h
    simp only [headerFold, Except.ok.injEq] at h
    simp [h]
  | cons kv rest ih =>
    intro acc acc' k h
    cases kv <;> simp only [headerFold] at h <;> try exact absurd h (by simp)
    case Width w =>
      rw [ih ⟨some w, acc.height, acc.unk⟩ acc' k h]
      simp [List.mem_cons]
    case Height n =>
      rw [ih ⟨acc.width, some n, acc.unk⟩ acc' k h]
      simp [List.mem_cons]
    case Unk k0 v0 =>
      rw [ih ⟨acc.width, acc.height, unkStep acc.unk k0 v0⟩ acc' k h]
      by_cases hk : k = k0
      · subst hk
        simp [unkLookup_unkStep_self, List.mem_cons]
      · rw [unkLookup_unkStep_ne acc.unk k0 k v0 hk]
        simp only [List.mem_cons, KeyValue.Unk.injEq]
        constructor
        · intro hc
          rcases hc with hc | ⟨v, hv⟩
          · exact Or.inl hc
          · exact Or.inr ⟨v, Or.inr hv⟩
        · intro hc
          rcases hc with hc | ⟨v, hv | hv⟩
          · exact Or.inl hc
          · exact absurd hv.1 hk
          · exact Or.inr ⟨v, hv⟩

/-! ## State fold lemmas -/

theorem stateFold_append : ∀ (xs ys : List KeyValue) (acc : SAcc),
    stateFold (xs ++ ys) acc =
      match stateFold xs acc with
      | Except.ok a => stateFold ys a
      | Except.error e => Except.error e := by
  intro xs
  induction xs with
  | nil => intro ys acc; simp [stateFold]
  | cons kv rest ih =>
    intro ys acc
    cases kv <;> simp only [List.cons_append, stateFold] <;> try rfl
    case Dirs d => exact ih ys _
    case Frames f => exact ih ys _
    case Delay l => exact ih ys _
    case Loop n => exact ih ys _
    case Rewind n => exact ih ys _
    case Movement n => exact ih ys _
    case Hotspot l =>
      by_cases hl : l.length = 3
      · rw [if_pos hl, if_pos hl]
        exact ih ys _
      · rw [if_neg hl, if_neg hl]
    case Unk k v => exact ih ys _

theorem stateFold_dirs_pres : ∀ (kvs : List KeyValue) (acc acc' : SAcc) (u : Option Dirs),
    stateFold kvs acc = Except.ok acc' → (∀ d, KeyValue.Dirs d ∉ kvs) →
    acc.dirs = u → acc'.dirs = u := by
  intro kvs
  induction kvs with
  | nil =>
    intro acc acc' u h _ hu
    simp only [stateFold, Except.ok.injEq] at h
    rw [← h]
    exact hu
  | cons kv rest ih =>
    intro acc acc' u h hd hu
    cases kv <;> simp only [stateFold] at h <;> try exact absurd h (by simp)
    case Dirs d => exact absurd (List.mem_cons_self _ _) (hd d)
    case Frames f => exact ih _ acc' u h (fun d hm => hd d (List.mem_cons_of_mem _ hm)) hu
    case Delay l => exact ih _ acc' u h (fun d hm => hd d (List.mem_cons_of_mem _ hm)) hu
    case Loop n => exact ih _ acc' u h (fun d hm => hd d (List.mem_cons_of_mem _ hm)) hu
    case Rewind n => exact ih _ acc' u h (fun d hm => hd d (List.mem_cons_of_mem _ hm)) hu
    case Movement n => exact ih _ acc' u h (fun d hm => hd d (List.mem_cons_of_mem _ hm)) hu
    case Hotspot l =>
      by_cases hl : l.length = 3
      · rw [if_pos hl] at h
        exact ih _ acc' u h (fun d hm => hd d (List.mem_cons_of_mem _ hm)) hu
      · rw [if_neg hl] at h
        exact absurd h (by simp)
    case Unk k v => exact ih _ acc' u h (fun d hm => hd d (List.mem_cons_of_mem _ hm)) hu

theorem stateFold_dirs_stays : ∀ (kvs : List KeyValue) (acc acc' : SAcc) (u : Dirs),
    stateFold kvs acc = Except.ok acc' → acc.dirs = some u →
    ∃ u', acc'.dirs = some u' := by
  intro kvs
  induction kvs with
  | nil =>
    intro acc acc' u h hu
    simp only [stateFold, Except.ok.injEq] at h
    exact ⟨u, by rw [← h]; exact hu⟩
  | cons kv rest ih =>
    intro acc acc' u h hu
    cases kv <;> simp only [stateFold] at h <;> try exact absurd h (by simp)
    case Dirs d => exact ih _ acc' d h rfl
    case Frames f => exact ih _ acc' u h hu
    case Delay l => exact ih _ acc' u h hu
    case Loop n => exact ih _ acc' u h hu
    case Rewind n => exact ih _ acc' u h hu
    case Movement n => exact ih _ acc' u h hu
    case Hotspot l =>
      by_cases hl : l.length = 3
      · rw [if_pos hl] at h
        exact ih _ acc' u h hu
      · rw [if_neg hl] at h
        exact absurd h (by simp)
    case Unk k v => exact ih _ acc' u h hu

theorem stateFold_unk_pres : ∀ (kvs : List KeyValue) (acc acc' : SAcc) (k : List Char)
    (u : Option Value), stateFold kvs acc = Except.ok acc' →
    (∀ v, KeyValue.Unk k v ∉ kvs) → unkLookup acc.unk k = u → unkLookup acc'.unk k = u := by
  intro kvs
  induction kvs with
  | nil =>
    intro acc acc' k u h _ hu
    simp only [stateFold, Except.ok.injEq] at h
    rw [← h]
    exact hu
  | cons kv rest ih =>
    intro acc acc' k u h hun hu
    cases kv <;> simp only [stateFold] at h <;> try exact absurd h (by simp)
    case Dirs d => exact ih _ acc' k u h (fun v hm => hun v (List.mem_cons_of_mem _ hm)) hu
    case Frames f => exact ih _ acc' k u h (fun v hm => hun v (List.mem_cons_of_mem _ hm)) hu
    case Delay l => exact ih _ acc' k u h (fun v hm => hun v (List.mem_cons_of_mem _ hm)) hu
    case Loop n => exact ih _ acc' k u h (fun v hm => hun v (List.mem_cons_of_mem _ hm)) hu
    case Rewind n => exact ih _ acc' k u h (fun v hm => hun v (List.mem_cons_of_mem _ hm)) hu
    case Movement n =>
      exact ih _ acc' k u h (fun v hm => hun v (List.mem_cons_of_mem _ hm)) hu
    case Hotspot l =>
      by_cases hl : l.length = 3
      · rw [if_pos hl] at h
        exact ih _ acc' k u h (fun v hm => hun v (List.mem_cons_of_mem _ hm)) hu
      · rw [if_neg hl] at h
        exact absurd h (by simp)
    case Unk k0 v0 =>
      have hk : k ≠ k0 := by
        intro hkk
        subst hkk
        exact absurd (List.mem_cons_self _ _) (hun v0)
      refine ih _ acc' k u h (fun v hm => hun v (List.mem_cons_of_mem _ hm)) ?_
      rw [unkLookup_unkStep_ne acc.unk k0 k v0 hk]
      exact hu

theorem stateFold_unk_none : ∀ (kvs : List KeyValue) (acc acc' : SAcc),
    stateFold kvs acc = Except.ok acc' →
    (acc'.unk = none ↔ (acc.unk = none ∧ ∀ k v, KeyValue.Unk k v ∉ kvs)) := by
  intro kvs
  induction kvs with
  | nil =>
    intro acc acc' h
    simp only [stateFold, Except.ok.injEq] at h
    simp [h]
  | cons kv rest ih =>
    intro acc acc' h
    cases kv <;> simp only [stateFold] at h <;> try exact absurd h (by simp)
    case Dirs d =>
      have hiff := ih _ acc' h
      rw [hiff]
      simp [List.mem_cons]
    case Frames f =>
      have hiff := ih _ acc' h
      rw [hiff]
      simp [List.mem_cons]
    case Delay l =>
      have hiff := ih _ acc' h
      rw [hiff]
      simp [List.mem_cons]
    case Loop n =>
      have hiff := ih _ acc' h
      rw [hiff]
      simp [List.mem_cons]
    case Rewind n =>
      have hiff := ih _ acc' h
      rw [hiff]
      simp [List.mem_cons]
    case Movement n =>
      have hiff := ih _ acc' h
      rw [hiff]
      simp [List.mem_cons]
    case Hotspot l =>
      by_cases hl : l.length = 3
      · rw [if_pos hl] at h
        have hiff := ih _ acc' h
        rw [hiff]
        simp [List.mem_cons]
      · rw [if_neg hl] at h
        exact absurd h (by simp)
    case Unk k0 v0 =>
      have hiff := ih _ acc' h
      rw [hiff]
      constructor
      · intro hc
        exact absurd hc.1 (unkStep_ne_none _ _ _)
      · intro hc
        exact absurd (List.mem_cons_self _ _) (hc.2 k0 v0)

theorem stateFold_unk_ne_nil : ∀ (kvs : List KeyValue) (acc acc' : SAcc),
    stateFold kvs acc = Except.ok acc' →
    (∀ m, acc.unk = some m → m ≠ []) → ∀ m, acc'.unk = some m → m ≠ [] := by
  intro kvs
  induction kvs with
  | nil =>
    intro acc acc' h hm
    simp only [stateFold, Except.ok.injEq] at h
    rw [← h]
    exact hm
  | cons kv rest ih =>
    intro acc acc' h hm
    cases kv <;> simp only [stateFold] at h <;> try exact absurd h (by simp)
    case Dirs d => exact ih _ acc' h hm
    case Frames f => exact ih _ acc' h hm
    case Delay l => exact ih _ acc' h hm
    case Loop n => exact ih _ acc' h hm
    case Rewind n => exact ih _ acc' h hm
    case Movement n => exact ih _ acc' h hm
    case Hotspot l =>
      by_cases hl : l.length = 3
      · rw [if_pos hl] at h
        exact ih _ acc' h hm
      · rw [if_neg hl] at h
        exact absurd h (by simp)
    case Unk k0 v0 =>
      exact ih _ acc' h fun m hm2 => unkStep_some_ne_nil acc.unk k0 v0 m hm2

theorem stateFold_unk_keys : ∀ (kvs : List KeyValue) (acc acc' : SAcc) (k : List Char),
    stateFold kvs acc = Except.ok acc' →
    ((∃ v, unkLookup acc'.unk k = some v) ↔
      (∃ v, unkLookup acc.unk k = some v) ∨ (∃ v, KeyValue.Unk k v ∈ kvs)) := by
  intro kvs
  induction kvs with
  | nil =>
    intro acc acc' k h
    simp only [stateFold, Except.ok.injEq] at h
    simp [h]
  | cons kv rest ih =>
    intro acc acc' k h
    cases kv <;> simp only [stateFold] at h <;> try exact absurd h (by simp)
    case Dirs d =>
      have hiff := ih _ acc' k h
      rw [hiff]
      simp [List.mem_cons]
    case Frames f =>
      have hiff := ih _ acc' k h
      rw [hiff]
      simp [List.mem_cons]
    case Delay l =>
      have hiff := ih _ acc' k h
      rw [hiff]
      simp [List.mem_cons]
    case Loop n =>
      have hiff := ih _ acc' k h
      rw [hiff]
      simp [List.mem_cons]
    case Rewind n =>
      have hiff := ih _ acc' k h
      rw [hiff]
      simp [List.mem_cons]
    case Movement n =>
      have hiff := ih _ acc' k h
      rw [hiff]
      simp [List.mem_cons]
    case Hotspot l =>
      by_cases hl : l.length = 3
      · rw [if_pos hl] at h
        have hiff := ih _ acc' k h
        rw [hiff]
        simp [List.mem_cons]
      · rw [if_neg hl] at h
        exact absurd h (by simp)
    case Unk k0 v0 =>
      have hiff := ih _ acc' k h
      rw [hiff]
      by_cases hk : k = k0
      · subst hk
        simp [unkLookup_unkStep_self, List.mem_cons]
      · rw [unkLookup_unkStep_ne acc.unk k0 k v0 hk]
        simp only [List.mem_cons, KeyValue.Unk.injEq]
        constructor
        · intro hc
          rcases hc with hc | ⟨v, hv⟩
          · exact Or.inl hc
          · exact Or.inr ⟨v, Or.inr hv⟩
        · intro hc
          rcases hc with hc | ⟨v, hv | hv⟩
          · exact Or.inl hc
          · exact absurd hv.1 hk
          · exact Or.inr ⟨v, hv⟩

theorem stateFold_hotspot_len : ∀ (kvs : List KeyValue) (acc acc' : SAcc),
    stateFold kvs acc = Except.ok acc' →
    (∀ hl, acc.hotspot = some hl → hl.length = 3) →
    ∀ hl, acc'.hotspot = some hl → hl.length = 3 := by
  intro kvs
  induction kvs with
  | nil =>
    intro acc acc' h hm
    simp only [stateFold, Except.ok.injEq] at h
    rw [← h]
    exact hm
  | cons kv rest ih =>
    intro acc acc' h hm
    cases kv <;> simp only [stateFold] at h <;> try exact absurd h (by simp)
    case Dirs d => exact ih _ acc' h hm
    case Frames f => exact ih _ acc' h hm
    case Delay l => exact ih _ acc' h hm
    case Loop n => exact ih _ acc' h hm
    case Rewind n => exact ih _ acc' h hm
    case Movement n => exact ih _ acc' h hm
    case Hotspot l =>
      by_cases hl : l.length = 3
      · rw [if_pos hl] at h
        refine ih _ acc' h ?_
        intro hl2 hh
        simp only [Option.some.injEq] at hh
        rw [← hh]
        exact hl
      · rw [if_neg hl] at h
        exact absurd h (by simp)
    case Unk k0 v0 => exact ih _ acc' h hm

theorem stateFold_hotspot_bad : ∀ (l : List Rat) (kvs2 : List KeyValue) (acc : SAcc),
    l.length ≠ 3 → stateFold (KeyValue.Hotspot l :: kvs2) acc =
      Except.error (DmiError.Generic "Hotspot information was not length 3") := by
  intro l kvs2 acc hl
  simp only [stateFold]
  rw [if_neg hl]

/-! ## TryFrom inversion and no-panic lemmas -/

theorem headerTryFrom_ok_inv : ∀ (intro : KeyValue) (kvs : List KeyValue) (hd : Header),
    Header.tryFrom intro kvs = TRes.ok hd →
    intro = KeyValue.Version 4 ∧ hd.version = 4 ∧
    ∃ acc, headerFold kvs hInit = Except.ok acc ∧
      acc.width = some hd.width ∧ acc.height = some hd.height ∧ hd.unk = acc.unk := by
  intro intro kvs hd h
  cases intro
  case Version v =>
    simp only [Header.tryFrom] at h
    split at h
    · exact absurd h (by simp)
    · next hv =>
      have hv4 : v = 4 := not_not.mp hv
      subst hv4
      split at h
      · exact absurd h (by simp)
      · next acc hf =>
        split at h
        · exact absurd h (by simp)
        · next w hw =>
          split at h
          · exact absurd h (by simp)
          · next hgt hh =>
            simp only [TRes.ok.injEq] at h
            rw [← h]
            exact ⟨rfl, rfl, acc, hf, hw, hh, rfl⟩
  all_goals simp [Header.tryFrom] at h

theorem stateTryFrom_ok_inv : ∀ (intro : KeyValue) (kvs : List KeyValue) (s : State),
    State.tryFrom intro kvs = TRes.ok s →
    intro = KeyValue.State s.name ∧
    ∃ acc, stateFold kvs sInit = Except.ok acc ∧
      acc.dirs = some s.dirs ∧ s.frames = acc.frames ∧ s.delays = acc.delays ∧
      s.loop_flag = acc.loop_flag ∧ s.rewind = acc.rewind ∧ s.movement = acc.movement ∧
      s.hotspot = acc.hotspot ∧ s.unk = acc.unk := by
  intro intro kvs s h
  cases intro
  case State name =>
    simp only [State.tryFrom] at h
    split at h
    · exact absurd h (by simp)
    · next acc hf =>
      split at h
      · exact absurd h (by simp)
      · next d hd =>
        simp only [TRes.ok.injEq] at h
        rw [← h]
        exact ⟨rfl, acc, hf, hd, rfl, rfl, rfl, rfl, rfl, rfl, rfl⟩
  all_goals simp [State.tryFrom] at h

theorem headerTryFrom_ne_panic : ∀ (kv : KeyValue) (kvs : List KeyValue),
    isVersionKV kv = true → Header.tryFrom kv kvs ≠ TRes.panic := by
  intro kv kvs hv hcontra
  cases kv
  case Version v =>
    simp only [Header.tryFrom] at hcontra
    repeat' split at hcontra
    all_goals simp at hcontra
  all_goals simp [isVersionKV] at hv

theorem stateTryFrom_ne_panic : ∀ (kv : KeyValue) (kvs : List KeyValue),
    isStateKV kv = true → State.tryFrom kv kvs ≠ TRes.panic := by
  intro kv kvs hs hcontra
  cases kv
  case State name =>
    simp only [State.tryFrom] at hcontra
    repeat' split at hcontra
    all_goals simp at hcontra
  all_goals simp [isStateKV] at hs

theorem headerTryFrom_of_fold : ∀ (kvs : List KeyValue) (acc : HAcc),
    headerFold kvs hInit = Except.ok acc →
    Header.tryFrom (KeyValue.Version 4) kvs =
      (match acc.width with
       | none => TRes.err (DmiError.Generic "Required field `width` was not found")
       | some w =>
         match acc.height with
         | none => TRes.err (DmiError.Generic "Required field `height` was not found")
         | some hgt => TRes.ok ⟨4, w, hgt, acc.unk⟩) := by
  intro kvs acc hf
  simp only [Header.tryFrom]
  rw [if_neg (by simp)]
  split
  · next e he =>
    rw [hf] at he
    exact absurd he (by simp)
  · next acc' ha =>
    rw [hf] at ha
    have : acc = acc' := Except.ok.inj ha
    rw [← this]

theorem stateTryFrom_of_fold : ∀ (name : List Char) (kvs : List KeyValue) (acc : SAcc),
    stateFold kvs sInit = Except.ok acc →
    State.tryFrom (KeyValue.State name) kvs =
      (match acc.dirs with
       | none => TRes.err (DmiError.Generic "Required field `dirs` was not found")
       | some d =>
         TRes.ok ⟨name, d, acc.frames, acc.delays, acc.loop_flag, acc.rewind,
           acc.movement, acc.hotspot, acc.unk⟩) := by
  intro name kvs acc hf
  simp only [State.tryFrom]
  split
  · next e he =>
    rw [hf] at he
    exact absurd he (by simp)
  · next acc' ha =>
    rw [hf] at ha
    have : acc = acc' := Except.ok.inj ha
    rw [← this]

theorem header_some_version : ∀ (input r : List Char) (hd : Header),
    header input = some (r, hd) → hd.version = 4 := by
  intro input r hd h
  simp only [header] at h
  obtain ⟨a, _, htf⟩ := mapTResP_some_inv h
  exact (headerTryFrom_ok_inv a.1 a.2 hd htf).2.1

/-! ## Claim theorems -/

set_option maxRecDepth 1000000

/-- C1: parsing the end-to-end example document of spec §8 (`# BEGIN DMI`,
`version = 4.0`, indented `width = 32` and `height = 32`, two state blocks
`state1` (dirs 4, frames 2, delay 1.2,1) and `state2` (dirs 1, frames 1),
`# END DMI`) succeeds, consumes the whole input, and returns the `Metadata`
with header version 4.0, width 32, height 32 and exactly the two states in
input order with the claimed fields (`delays = some [1.2, 1]` for `state1`,
`delays = none` for `state2`). -/
theorem claim_C1 : metadata doc1 = some ([], md1) := by decide

/-- C2: every `Header` produced by a successful top-level parse has version
exactly 4.0; hence no document whose version line carries a float other
than 4.0 can produce a `Metadata` (the parse fails with no partial
result, `metadata` returning `none` in the model). -/
theorem claim_C2 : ∀ (input r : List Char) (md : Metadata),
    metadata input = some (r, md) → md.header.version = 4 := by
  intro input r md h
  simp only [metadata] at h
  rw [Option.map_eq_some'] at h
  obtain ⟨⟨r0, hs⟩, hall, heq⟩ := h
  simp only [Prod.mk.injEq] at heq
  obtain ⟨hr0, hmd⟩ := heq
  obtain ⟨hdel, -⟩ := allConsuming_some_inv hall
  obtain ⟨r1, a, r2, c, hbegin, hpair, hend⟩ := delimitedP_some_inv hdel
  obtain ⟨rH, hheader, hstates⟩ := pairP_some_inv hpair
  have hv := header_some_version r1 rH hs.1 hheader
  rw [← hmd]
  exact hv

/-- C2 witness: instantiating C2 at the concrete document `doc1`, whose
parse succeeds, yields that the resulting header version is 4. -/
theorem claim_C2_witness : md1.header.version = 4 :=
  claim_C2 doc1 [] md1 (by decide)

/-- C9: whenever the grammar part of the `header` (resp. `state`) parser
succeeds, the introducer key-value it returns is a `Version` (resp.
`State`) variant thanks to the `verify` guard, so the `unreachable!()`
branch of the corresponding `TryFrom` implementation (modelled as
`TRes.panic`) is never executed: the parsers never panic. -/
theorem claim_C9 :
    (∀ (input r : List Char) (p : KeyValue × List KeyValue),
      header_raw input = some (r, p) → Header.tryFrom p.1 p.2 ≠ TRes.panic) ∧
    (∀ (input r : List Char) (p : KeyValue × List KeyValue),
      state_raw input = some (r, p) → State.tryFrom p.1 p.2 ≠ TRes.panic) := by
  constructor
  · intro input r p h
    simp only [header_raw] at h
    obtain ⟨r1, hv, -⟩ := pairP_some_inv h
    obtain ⟨-, hpred⟩ := verifyP_some_inv hv
    exact headerTryFrom_ne_panic p.1 p.2 hpred
  · intro input r p h
    simp only [state_raw] at h
    obtain ⟨r1, hv, -⟩ := pairP_some_inv h
    obtain ⟨-, hpred⟩ := verifyP_some_inv hv
    exact stateTryFrom_ne_panic p.1 p.2 hpred

/-- C9 witness: instantiating C9 at a concrete successful run of the header
grammar shows the assembled introducer cannot hit the panic branch. -/
theorem claim_C9_witness :
    Header.tryFrom (KeyValue.Version 4) [KeyValue.Width 32, KeyValue.Height 32] ≠
      TRes.panic :=
  claim_C9.1 "version = 4.0\n    width = 32\n    height = 32\n".data []
    (KeyValue.Version 4, [KeyValue.Width 32, KeyValue.Height 32]) (by decide)

/-- C8 counterexample: the document of spec §8 with the version introducer
line indented by exactly two spaces — the canonical form §6 describes — is
rejected by the top-level parse, so the claim as stated is false. -/
theorem claim_C8_counterexample : metadata doc1Indent = none := by decide

/-- C8 (amended): a canonical document whose version introducer line starts
at column zero is accepted by the top-level parse, and the header parser
rejects any input whose first character is a space — version lines preceded
by two spaces of indentation are not accepted. -/
theorem claim_C8 :
    metadata doc1 = some ([], md1) ∧ ∀ rest : List Char, header (' ' :: rest) = none := by
  constructor
  · decide
  · intro rest
    have hk : key (' ' :: rest) = none := by
      simp [key, alpha1, List.takeWhile_cons]
    have hkv : key_value (' ' :: rest) = none := by
      simp [key_value, mapResP, sepPairP, hk]
    have hterm : terminatedP key_value newlineP (' ' :: rest) = none := by
      simp [terminatedP, hkv]
    simp [header, mapTResP, header_raw, pairP, verifyP, hterm]

/-- C3: the key-value recognizer maps `dirs = 4` to `Dirs Four`, `dirs = 1`
to `Dirs One`, `dirs = 8` to `Dirs Eight`; `dirs = 2` and `dirs = 0` fail;
and in general, whenever the key parses as `dirs` and the value lexes as an
integer `n` outside `{1, 4, 8}`, the recognizer returns no `KeyValue` at
all (validation failure). -/
theorem claim_C3 :
    key_value "dirs = 4".data = some ([], KeyValue.Dirs Dirs.Four) ∧
    key_value "dirs = 1".data = some ([], KeyValue.Dirs Dirs.One) ∧
    key_value "dirs = 8".data = some ([], KeyValue.Dirs Dirs.Eight) ∧
    key_value "dirs = 2".data = none ∧
    key_value "dirs = 0".data = none ∧
    (∀ (input r1 r2 r3 sep : List Char) (n : Int),
      key input = some (r1, Key.Dirs) →
      tagP " = ".data r1 = some (r2, sep) →
      atom r2 = some (r3, Value.Int n) →
      n ≠ 1 → n ≠ 4 → n ≠ 8 →
      key_value input = none) := by
  refine ⟨by decide, by decide, by decide, by decide, by decide, ?_⟩
  intro input r1 r2 r3 sep n hk ht ha h1 h4 h8
  simp [key_value, mapResP, sepPairP, hk, ht, ha, validateKV, Dirs.tryFrom, h1, h4, h8,
    Except.map]

/-- C3 witness: instantiating the general part of C3 at the concrete
sub-parses of `dirs = 2` yields the validation failure. -/
theorem claim_C3_witness : key_value "dirs = 2".data = none :=
  claim_C3.2.2.2.2.2 "dirs = 2".data " = 2".data "2".data [] " = ".data 2
    (by decide) (by decide) (by decide) (by decide) (by decide) (by decide)

/-- C4: the key-value recognizer accepts `hotspot = 13,12,1` (producing
`Hotspot [13, 12, 1]`) and its validation step accepts a `hotspot` key with
a numeric list of any length; state assembly accepts a hotspot pair exactly
when the list has 3 elements (every assembled hotspot has length 3), and
for any other length it fails with the length-mismatch error at the
state-assembly stage — witnessed concretely by a state block with
`hotspot = 13,12` whose key-value pairs parse but whose assembly fails. -/
theorem claim_C4 :
    key_value "hotspot = 13,12,1".data = some ([], KeyValue.Hotspot [13, 12, 1]) ∧
    (∀ l : List Rat, validateKV (Key.Hotspot, Value.List l) =
      Except.ok (KeyValue.Hotspot l)) ∧
    (∀ (name : List Char) (kvs1 kvs2 : List KeyValue) (acc : SAcc) (l : List Rat),
      stateFold kvs1 sInit = Except.ok acc → l.length ≠ 3 →
      State.tryFrom (KeyValue.State name) (kvs1 ++ KeyValue.Hotspot l :: kvs2) =
        TRes.err (DmiError.Generic "Hotspot information was not length 3")) ∧
    (∀ (intro : KeyValue) (kvs : List KeyValue) (s : State),
      State.tryFrom intro kvs = TRes.ok s → ∀ hl, s.hotspot = some hl → hl.length = 3) ∧
    state ("state = \"x\"\n    dirs = 1\n    hotspot = 13,12,1\n").data =
      some ([], ⟨"x".data, Dirs.One, 1, none, none, none, none, some [13, 12, 1], none⟩) ∧
    state ("state = \"x\"\n    dirs = 1\n    hotspot = 13,12\n").data = none := by
  refine ⟨by decide, fun l => rfl, ?_, ?_, by decide, by decide⟩
  · intro name kvs1 kvs2 acc l hf hl
    have hcomb : stateFold (kvs1 ++ KeyValue.Hotspot l :: kvs2) sInit =
        stateFold (KeyValue.Hotspot l :: kvs2) acc := by
      rw [stateFold_append, hf]
    simp only [State.tryFrom]
    rw [hcomb, stateFold_hotspot_bad l kvs2 acc hl]
  · intro intro kvs s htf hl hsome
    obtain ⟨-, acc, hf, -, -, -, -, -, -, hhot, -⟩ := stateTryFrom_ok_inv intro kvs s htf
    refine stateFold_hotspot_len kvs sInit acc hf ?_ hl ?_
    · intro hl2 hh
      simp [sInit] at hh
    · rw [← hhot]
      exact hsome

/-- C4 witness: instantiating the assembly-failure part of C4 at a concrete
state block whose hotspot list has two elements. -/
theorem claim_C4_witness :
    State.tryFrom (KeyValue.State "x".data)
        ([KeyValue.Dirs Dirs.One] ++ KeyValue.Hotspot [13, 12] :: []) =
      TRes.err (DmiError.Generic "Hotspot information was not length 3") :=
  claim_C4.2.2.1 "x".data [KeyValue.Dirs Dirs.One] []
    ⟨some Dirs.One, 1, none, none, none, none, none, none⟩ [13, 12]
    (by rfl) (by decide)

/-- C5: after the property fold succeeds, block assembly checks required
fields: a header block with no `width` pair fails naming `width`; one with
a `width` pair but no `height` pair fails naming `height`; a state block
with no `dirs` pair fails naming `dirs`; conversely every successfully
assembled header got both a `width` and a `height` pair among its
properties, and every successfully assembled state got a `dirs` pair. -/
theorem claim_C5 :
    (∀ (kvs : List KeyValue) (acc : HAcc),
      headerFold kvs hInit = Except.ok acc → (∀ w : Int, KeyValue.Width w ∉ kvs) →
      Header.tryFrom (KeyValue.Version 4) kvs =
        TRes.err (DmiError.Generic "Required field `width` was not found")) ∧
    (∀ (kvs : List KeyValue) (acc : HAcc),
      headerFold kvs hInit = Except.ok acc → (∀ n : Int, KeyValue.Height n ∉ kvs) →
      (∃ w : Int, KeyValue.Width w ∈ kvs) →
      Header.tryFrom (KeyValue.Version 4) kvs =
        TRes.err (DmiError.Generic "Required field `height` was not found")) ∧
    (∀ (name : List Char) (kvs : List KeyValue) (acc : SAcc),
      stateFold kvs sInit = Except.ok acc → (∀ d, KeyValue.Dirs d ∉ kvs) →
      State.tryFrom (KeyValue.State name) kvs =
        TRes.err (DmiError.Generic "Required field `dirs` was not found")) ∧
    (∀ (intro : KeyValue) (kvs : List KeyValue) (hd : Header),
      Header.tryFrom intro kvs = TRes.ok hd →
      (∃ w, KeyValue.Width w ∈ kvs) ∧ (∃ n, KeyValue.Height n ∈ kvs)) ∧
    (∀ (intro : KeyValue) (kvs : List KeyValue) (s : State),
      State.tryFrom intro kvs = TRes.ok s → ∃ d, KeyValue.Dirs d ∈ kvs) := by
  refine ⟨?_, ?_, ?_, ?_, ?_⟩
  · intro kvs acc hf hw
    have hwn : acc.width = none := by
      have := headerFold_width_pres kvs hInit acc hf hw
      simpa [hInit] using this
    rw [headerTryFrom_of_fold kvs acc hf, hwn]
  · intro kvs acc hf hh hex
    have hhn : acc.height = none := by
      have := headerFold_height_pres kvs hInit acc hf hh
      simpa [hInit] using this
    obtain ⟨w, hwmem⟩ := hex
    obtain ⟨l1, l2, hsplit⟩ := List.append_of_mem hwmem
    subst hsplit
    have hws : ∃ u, acc.width = some u := by
      cases hfl : headerFold l1 hInit with
      | error e =>
        rw [headerFold_append, hfl] at hf
        exact absurd hf (by simp)
      | ok acc1 =>
        rw [headerFold_append, hfl] at hf
        have hf2 : headerFold l2 ⟨some w, acc1.height, acc1.unk⟩ = Except.ok acc := hf
        exact headerFold_width_stays l2 ⟨some w, acc1.height, acc1.unk⟩ acc w hf2 rfl
    obtain ⟨u, hu⟩ := hws
    rw [headerTryFrom_of_fold _ acc hf, hu, hhn]
  · intro name kvs acc hf hd
    have hdn : acc.dirs = none := by
      refine stateFold_dirs_pres kvs sInit acc none hf hd ?_
      simp [sInit]
    rw [stateTryFrom_of_fold name kvs acc hf, hdn]
  · intro intro kvs hd htf
    obtain ⟨-, -, acc, hf, hw, hh, -⟩ := headerTryFrom_ok_inv intro kvs hd htf
    constructor
    · by_contra hno
      push_neg at hno
      have := headerFold_width_pres kvs hInit acc hf fun w hm => hno w hm
      rw [hw] at this
      simp [hInit] at this
    · by_contra hno
      push_neg at hno
      have := headerFold_height_pres kvs hInit acc hf fun n hm => hno n hm
      rw [hh] at this
      simp [hInit] at this
  · intro intro kvs s htf
    obtain ⟨-, acc, hf, hds, -⟩ := stateTryFrom_ok_inv intro kvs s htf
    by_contra hno
    push_neg at hno
    have := stateFold_dirs_pres kvs sInit acc none hf (fun d hm => hno d hm) (by simp [sInit])
    rw [hds] at this
    exact absurd this (by simp)

/-- C5 witness: instantiating the missing-width part of C5 at a concrete
header block containing only a `height` property. -/
theorem claim_C5_witness :
    Header.tryFrom (KeyValue.Version 4) [KeyValue.Height 32] =
      TRes.err (DmiError.Generic "Required field `width` was not found") :=
  claim_C5.1 [KeyValue.Height 32] ⟨none, some 32, none⟩ (by rfl)
    (by intro w hmem; simp at hmem)

/-- C6: every block requires at least one indented property line: if the
introducer line of a header (resp. state) block parses but the remaining
input does not start with horizontal whitespace (e.g. another introducer or
the terminator follows immediately), the block parser fails; and a property
line is recognized after one-or-more leading spaces regardless of how many
— the parse of the property line does not depend on the indentation
width. -/
theorem claim_C6 :
    (∀ (input r : List Char) (kv : KeyValue),
      terminatedP key_value newlineP input = some (r, kv) → isVersionKV kv = true →
      headIsHorizWs r = false → header input = none) ∧
    (∀ (input r : List Char) (kv : KeyValue),
      terminatedP key_value newlineP input = some (r, kv) → isStateKV kv = true →
      headIsHorizWs r = false → state input = none) ∧
    (∀ (k : Nat) (c : Char) (rest : List Char), 1 ≤ k → isHorizWs c = false →
      delimitedP space1 key_value newlineP (List.replicate k ' ' ++ c :: rest) =
        terminatedP key_value newlineP (c :: rest)) := by
  refine ⟨?_, ?_, ?_⟩
  · intro input r kv ht hv hr
    have hinner : delimitedP space1 key_value newlineP r = none := by
      simp [delimitedP, space1_none_of_head hr]
    have hmany := many1_of_fail hinner
    simp [header, mapTResP, header_raw, pairP, verifyP, ht, hv, hmany]
  · intro input r kv ht hv hr
    have hinner : delimitedP space1 key_value newlineP r = none := by
      simp [delimitedP, space1_none_of_head hr]
    have hmany := many1_of_fail hinner
    simp [state, mapTResP, state_raw, pairP, verifyP, ht, hv, hmany]
  · intro k c rest hk hc
    simp [delimitedP, terminatedP, space1_replicate k c rest hk hc]

/-- C6 witness: instantiating the state part of C6 where a `state`
introducer line is immediately followed by another `state` line with no
intervening indented property. -/
theorem claim_C6_witness :
    state "state = \"x\"\nstate = \"y\"\n    dirs = 1\n".data = none :=
  claim_C6.2.1 "state = \"x\"\nstate = \"y\"\n    dirs = 1\n".data
    "state = \"y\"\n    dirs = 1\n".data (KeyValue.State "x".data)
    (by decide) (by decide) (by decide)

/-- C7: duplicate keys are resolved last-write-wins with no error, in both
assemblers: if the last `width` pair of a header block carries `w`, the
assembled header's width is `w`; if the last `dirs` pair of a state block
carries `d`, the assembled state's dirs is `d`; if the last unrecognized
pair named `k` carries `v`, the assembled record's unknown mapping sends
`k` to `v`; and concretely, blocks with duplicated known and unknown keys
assemble successfully keeping the last value. -/
theorem claim_C7 :
    (∀ (kvs1 kvs2 : List KeyValue) (w : Int) (hd : Header),
      Header.tryFrom (KeyValue.Version 4) (kvs1 ++ KeyValue.Width w :: kvs2) =
        TRes.ok hd →
      (∀ u : Int, KeyValue.Width u ∉ kvs2) → hd.width = w) ∧
    (∀ (kvs1 kvs2 : List KeyValue) (k : List Char) (v : Value) (hd : Header),
      Header.tryFrom (KeyValue.Version 4) (kvs1 ++ KeyValue.Unk k v :: kvs2) =
        TRes.ok hd →
      (∀ v' : Value, KeyValue.Unk k v' ∉ kvs2) → unkLookup hd.unk k = some v) ∧
    (∀ (name : List Char) (kvs1 kvs2 : List KeyValue) (d : Dirs) (s : State),
      State.tryFrom (KeyValue.State name) (kvs1 ++ KeyValue.Dirs d :: kvs2) =
        TRes.ok s →
      (∀ d' : Dirs, KeyValue.Dirs d' ∉ kvs2) → s.dirs = d) ∧
    (∀ (name : List Char) (kvs1 kvs2 : List KeyValue) (k : List Char) (v : Value)
        (s : State),
      State.tryFrom (KeyValue.State name) (kvs1 ++ KeyValue.Unk k v :: kvs2) =
        TRes.ok s →
      (∀ v' : Value, KeyValue.Unk k v' ∉ kvs2) → unkLookup s.unk k = some v) ∧
    Header.tryFrom (KeyValue.Version 4)
        [KeyValue.Width 1, KeyValue.Height 2, KeyValue.Width 32] =
      TRes.ok ⟨4, 32, 2, none⟩ ∧
    Header.tryFrom (KeyValue.Version 4)
        [KeyValue.Width 5, KeyValue.Height 6, KeyValue.Unk "a".data (Value.Int 1),
          KeyValue.Unk "a".data (Value.Int 2)] =
      TRes.ok ⟨4, 5, 6, some [("a".data, Value.Int 2)]⟩ ∧
    State.tryFrom (KeyValue.State "x".data)
        [KeyValue.Dirs Dirs.One, KeyValue.Frames 2, KeyValue.Dirs Dirs.Eight] =
      TRes.ok ⟨"x".data, Dirs.Eight, 2, none, none, none, none, none, none⟩ := by
  refine ⟨?_, ?_, ?_, ?_, by rfl, by rfl, by rfl⟩
  · intro kvs1 kvs2 w hd htf hno
    obtain ⟨-, -, acc, hf, hw, -, -⟩ := headerTryFrom_ok_inv _ _ _ htf
    cases hfl : headerFold kvs1 hInit with
    | error e =>
      rw [headerFold_append, hfl] at hf
      exact absurd hf (by simp)
    | ok acc1 =>
      rw [headerFold_append, hfl] at hf
      have hf2 : headerFold kvs2 ⟨some w, acc1.height, acc1.unk⟩ = Except.ok acc := hf
      have hlast := headerFold_width_pres kvs2 ⟨some w, acc1.height, acc1.unk⟩ acc hf2 hno
      rw [hw] at hlast
      exact Option.some.inj hlast
  · intro kvs1 kvs2 k v hd htf hno
    obtain ⟨-, -, acc, hf, -, -, hunk⟩ := headerTryFrom_ok_inv _ _ _ htf
    cases hfl : headerFold kvs1 hInit with
    | error e =>
      rw [headerFold_append, hfl] at hf
      exact absurd hf (by simp)
    | ok acc1 =>
      rw [headerFold_append, hfl] at hf
      have hf2 : headerFold kvs2 ⟨acc1.width, acc1.height, unkStep acc1.unk k v⟩ =
          Except.ok acc := hf
      have hlast := headerFold_unk_pres kvs2 ⟨acc1.width, acc1.height, unkStep acc1.unk k v⟩
        acc k hf2 hno
      rw [hunk, hlast]
      exact unkLookup_unkStep_self acc1.unk k v
  · intro name kvs1 kvs2 d s htf hno
    obtain ⟨-, acc, hf, hds, -⟩ := stateTryFrom_ok_inv _ _ _ htf
    cases hfl : stateFold kvs1 sInit with
    | error e =>
      rw [stateFold_append, hfl] at hf
      exact absurd hf (by simp)
    | ok acc1 =>
      rw [stateFold_append, hfl] at hf
      have hf2 : stateFold kvs2 ⟨some d, acc1.frames, acc1.delays, acc1.loop_flag,
          acc1.rewind, acc1.movement, acc1.hotspot, acc1.unk⟩ = Except.ok acc := hf
      have hlast := stateFold_dirs_pres kvs2 ⟨some d, acc1.frames, acc1.delays,
        acc1.loop_flag, acc1.rewind, acc1.movement, acc1.hotspot, acc1.unk⟩ acc
        (some d) hf2 hno rfl
      rw [hds] at hlast
      exact Option.some.inj hlast
  · intro name kvs1 kvs2 k v s htf hno
    obtain ⟨-, acc, hf, -, -, -, -, -, -, -, hunk⟩ := stateTryFrom_ok_inv _ _ _ htf
    cases hfl : stateFold kvs1 sInit with
    | error e =>
      rw [stateFold_append, hfl] at hf
      exact absurd hf (by simp)
    | ok acc1 =>
      rw [stateFold_append, hfl] at hf
      have hf2 : stateFold kvs2 ⟨acc1.dirs, acc1.frames, acc1.delays, acc1.loop_flag,
          acc1.rewind, acc1.movement, acc1.hotspot, unkStep acc1.unk k v⟩ =
          Except.ok acc := hf
      have hlast := stateFold_unk_pres kvs2 ⟨acc1.dirs, acc1.frames, acc1.delays,
        acc1.loop_flag, acc1.rewind, acc1.movement, acc1.hotspot, unkStep acc1.unk k v⟩
        acc k (some v) hf2 hno (unkLookup_unkStep_self acc1.unk k v)
      rw [hunk]
      exact hlast

/-- C7 witness: instantiating the header-width part of C7 at a concrete
block whose last `width` pair carries 32. -/
theorem claim_C7_witness : (Header.mk 4 32 2 none).width = 32 :=
  claim_C7.1 [KeyValue.Height 2, KeyValue.Width 1] [] 32 ⟨4, 32, 2, none⟩
    (by rfl) (by intro u hmem; simp at hmem)

/-- C10: for every successfully assembled header or state, the `unk` field
is `none` exactly when the block contained no unrecognized-key pair; it is
never `some` of an empty mapping; and when present, its keys are exactly
the unrecognized key names that appeared among the block's properties. -/
theorem claim_C10 :
    (∀ (intro : KeyValue) (kvs : List KeyValue) (hd : Header),
      Header.tryFrom intro kvs = TRes.ok hd →
      ((hd.unk = none ↔ ∀ k v, KeyValue.Unk k v ∉ kvs) ∧
       (∀ m, hd.unk = some m → m ≠ []) ∧
       (∀ k, (∃ v, unkLookup hd.unk k = some v) ↔ ∃ v, KeyValue.Unk k v ∈ kvs))) ∧
    (∀ (intro : KeyValue) (kvs : List KeyValue) (s : State),
      State.tryFrom intro kvs = TRes.ok s →
      ((s.unk = none ↔ ∀ k v, KeyValue.Unk k v ∉ kvs) ∧
       (∀ m, s.unk = some m → m ≠ []) ∧
       (∀ k, (∃ v, unkLookup s.unk k = some v) ↔ ∃ v, KeyValue.Unk k v ∈ kvs))) := by
  constructor
  · intro intro kvs hd htf
    obtain ⟨-, -, acc, hf, -, -, hunk⟩ := headerTryFrom_ok_inv _ _ _ htf
    refine ⟨?_, ?_, ?_⟩
    · rw [hunk, headerFold_unk_none kvs hInit acc hf]
      simp [hInit]
    · rw [hunk]
      exact headerFold_unk_ne_nil kvs hInit acc hf (by simp [hInit])
    · intro k
      rw [hunk, headerFold_unk_keys kvs hInit acc k hf]
      simp [hInit, unkLookup]
  · intro intro kvs s htf
    obtain ⟨-, acc, hf, -, -, -, -, -, -, -, hunk⟩ := stateTryFrom_ok_inv _ _ _ htf
    refine ⟨?_, ?_, ?_⟩
    · rw [hunk, stateFold_unk_none kvs sInit acc hf]
      simp [sInit]
    · rw [hunk]
      exact stateFold_unk_ne_nil kvs sInit acc hf (by simp [sInit])
    · intro k
      rw [hunk, stateFold_unk_keys kvs sInit acc k hf]
      simp [sInit, unkLookup]

/-- C10 witness: instantiating the header part of C10 at a concrete block
with one unrecognized key. -/
theorem claim_C10_witness :
    ((Header.mk 4 32 32 (some [("a".data, Value.Int 1)])).unk = none ↔
      ∀ k v, KeyValue.Unk k v ∉
        [KeyValue.Width 32, KeyValue.Height 32, KeyValue.Unk "a".data (Value.Int 1)]) ∧
    (∀ m, (Header.mk 4 32 32 (some [("a".data, Value.Int 1)])).unk = some m → m ≠ []) ∧
    (∀ k, (∃ v, unkLookup (Header.mk 4 32 32 (some [("a".data, Value.Int 1)])).unk k =
        some v) ↔
      ∃ v, KeyValue.Unk k v ∈
        [KeyValue.Width 32, KeyValue.Height 32, KeyValue.Unk "a".data (Value.Int 1)]) :=
  claim_C10.1 (KeyValue.Version 4)
    [KeyValue.Width 32, KeyValue.Height 32, KeyValue.Unk "a".data (Value.Int 1)]
    ⟨4, 32, 32, some [("a".data, Value.Int 1)]⟩ (by rfl)

end Dmi
